import Mathlib

/-!
# Verification of the `ghs` / `ghss` env-file ↔ remote store sync tool

A shallow embedding of the Python sources under `src/` (packages `ghs` and
`ghss`): the local `.env` file codec (`env_utils.py`), the transport shim and
remote-store accessor (`gh_utils.py`), and the command bodies (`commands.py`,
`ghs/__init__.py`).  Strings are modelled as `List Char`; file contents as one
string; a text file interaction is the pure function from old content and
arguments to new content; subprocess spawns are modelled by passing the
subprocess outcome in as data and recording the issued argument vectors as an
event trace.
-/

namespace Ghs

/-- Python strings, modelled as lists of characters. -/
abbrev Str := List Char

/-- Whitespace as recognised by Python's `str.strip()` (the ASCII subset that
can occur in the inputs of interest). -/
def pyIsSpace (c : Char) : Bool :=
  c = ' ' || c = '\t' || c = '\n' || c = '\r' || c = '\x0b' || c = '\x0c'

/-- `s.lstrip()`: drop leading whitespace. -/
def lstrip (s : Str) : Str := s.dropWhile pyIsSpace

/-- `s.rstrip()`: drop trailing whitespace. -/
def rstrip (s : Str) : Str := (s.reverse.dropWhile pyIsSpace).reverse

/-- Python `s.strip()`. -/
def strip (s : Str) : Str := rstrip (lstrip s)

/-- `line.split("=", 1)`: split on the first `'='`; `none` when no `'='`
occurs (the Python two-element unpacking would fail, which callers guard by an
`"=" in line` test). -/
def splitFirstEq : Str → Option (Str × Str)
  | [] => none
  | c :: rest =>
    if c = '=' then some ([], rest)
    else
      match splitFirstEq rest with
      | none => none
      | some (k, v) => some (c :: k, v)

/-- Python `dict` assignment `d[k] = v` on an insertion-ordered association
list: an existing key keeps its position and gets the new value, a new key is
appended at the end. -/
def dictInsert : List (Str × Str) → Str → Str → List (Str × Str)
  | [], k, v => [(k, v)]
  | (k', v') :: rest, k, v =>
    if k' = k then (k, v) :: rest else (k', v') :: dictInsert rest k v

/-- Splitting file content into lines at `'\n'`, as iterating a Python text
file line by line does (an empty final segment corresponds to a trailing
newline). -/
def splitOnNl : Str → List Str
  | [] => [[]]
  | c :: rest =>
    if c = '\n' then [] :: splitOnNl rest
    else
      match splitOnNl rest with
      | [] => [[c]]
      | l :: ls => (c :: l) :: ls

/-- One step of the line-by-line `.env` parse: strip the line, skip blank
lines and `#` comments, skip lines without `'='`, split at the first `'='`,
strip key and value, skip an empty key, otherwise perform a dict assignment.
This is the parse loop written out in `ghs/__init__.py` (`set`, lines
147-168). -/
def parseLineStep (acc : List (Str × Str)) (rawLine : Str) : List (Str × Str) :=
  let line := strip rawLine
  if line = [] then acc
  else if line.head? = some '#' then acc
  else
    match splitFirstEq line with
    | none => acc
    | some (k, v) =>
      let key := strip k
      let value := strip v
      if key = [] then acc else dictInsert acc key value

/-- Modelled from the spec: the `ghss` variant reads the file through the
third-party `dotenv_values`, whose implementation is not part of this
repository; the spec (§4.5) fixes the codec's parse as: line by line, strip
whitespace, skip empty lines and lines starting with `#`, split on the first
`=`, strip key and value, skip lines with an empty key or no `=`.  That is
the same loop `ghs/__init__.py` spells out inline. -/
def dotenvValues (content : Str) : List (Str × Str) :=
  (splitOnNl content).foldl parseLineStep []

/-- `load_env_file` (`ghss/env_utils.py`, lines 8-28): if the path does not
exist, print an error and exit with code 1; otherwise parse the file and keep
only entries with a non-empty key and a non-empty value.  The existence test
`Path(file).exists()` is the boolean argument; the file's content is the
string argument. -/
def load_env_file (fileExists : Bool) (content : Str) : Except Nat (List (Str × Str)) :=
  if !fileExists then Except.error 1
  else Except.ok ((dotenvValues content).filter fun kv => decide (kv.1 ≠ []) && decide (kv.2 ≠ []))

/-- An entry dictionary handed to `write_env_file`: a JSON object that may or
may not carry a `name` and a `value` field (secret listings carry only
`name`). -/
structure Entry where
  name : Option Str
  value : Option Str
deriving DecidableEq

/-- The line `f"{name}={value}\n"` written for one entry by the `ghss`
`write_env_file` (lines 31-43), with `var.get('name', '')` and
`var.get('value', '')` for the field accesses. -/
def entryLine (e : Entry) : Str :=
  e.name.getD [] ++ '=' :: (e.value.getD [] ++ ['\n'])

/-- `write_env_file` (`ghss/env_utils.py`): the content of the file after the
loop of writes, one line per entry in list order. -/
def write_env_file : List Entry → Str
  | [] => []
  | e :: rest => entryLine e ++ write_env_file rest

/-- Opening a path with mode `"w"` truncates it: the resulting content is the
newly written content, whatever the file held before.  The first argument is
the file's previous content (`none` when the file did not exist). -/
def write_env_file_fs (oldContent : Option Str) (entries : List Entry) : Str :=
  match oldContent with
  | _ => write_env_file entries

/-- `write_env_file` of the legacy `ghs` package (`ghs/env_utils.py`, lines
31-41): writes `f"{secret['name']}=\n"` per entry — the value half is always
empty, and a strict `['name']` access fails (`KeyError`) when the field is
missing. -/
def ghs_write_env_file : List Entry → Option Str
  | [] => some []
  | e :: rest =>
    match e.name with
    | none => none
    | some n =>
      match ghs_write_env_file rest with
      | none => none
      | some r => some (n ++ '=' :: '\n' :: r)

/-- The outcome of `subprocess.run` as the shim sees it: exit status and the
captured output streams. -/
structure CompletedProcess where
  returncode : Nat
  stdout : Str
  stderr : Str
deriving DecidableEq

/-- What `run_gh_command` does with a subprocess outcome: either the raw
result is returned, or the command fails fatally (a `typer.Exit` with an exit
code) after printing a message to the error stream. -/
inductive GhResult where
  | ok (result : CompletedProcess)
  | fatal (exitCode : Nat) (errMsg : Str)
deriving DecidableEq

/-- `run_gh_command` (`ghss/gh_utils.py`, lines 8-19; identical in
`ghs/__init__.py`, lines 11-22): the subprocess is always run with
`check=False`; afterwards, if the caller's `check` flag is set and the exit
status is non-zero, print `"Error running gh command: "` plus the captured
stderr and exit with code 1, else return the result unchanged. -/
def run_gh_command (result : CompletedProcess) (check : Bool) : GhResult :=
  if check && result.returncode != 0 then
    GhResult.fatal 1 (("Error running gh command: ".data) ++ result.stderr)
  else
    GhResult.ok result

/-- The header arguments every `gh api` invocation of `gh_utils.py` passes. -/
def apiHeaderArgs : List Str :=
  ["-H".data, "Accept: application/vnd.github+json".data,
   "-H".data, "X-GitHub-Api-Version: 2022-11-28".data]

/-- The argument vector of the PATCH (update-in-place) attempt inside
`set_variable` (`ghss/gh_utils.py`, lines 98-138). -/
def patchVariableArgs (repo name value : Str) : List Str :=
  ["api".data, "--method".data, "PATCH".data] ++ apiHeaderArgs ++
    ["/repos/".data ++ repo ++ "/actions/variables/".data ++ name,
     "-f".data, "name=".data ++ name, "-f".data, "value=".data ++ value]

/-- The argument vector of the POST (create) fallback inside `set_variable`. -/
def postVariableArgs (repo name value : Str) : List Str :=
  ["api".data, "--method".data, "POST".data] ++ apiHeaderArgs ++
    ["/repos/".data ++ repo ++ "/actions/variables".data,
     "-f".data, "name=".data ++ name, "-f".data, "value=".data ++ value]

/-- `set_variable` (`ghss/gh_utils.py`, lines 98-138), viewed as the sequence
of `gh` argument vectors it issues: first the PATCH attempt (run with
`check=False`); then, exactly when that attempt's exit status is non-zero,
the POST create call.  `patchExit` is the exit status the environment gives
the PATCH attempt. -/
def set_variable (repo name value : Str) (patchExit : Nat) : List (List Str) :=
  patchVariableArgs repo name value ::
    (if patchExit ≠ 0 then [postVariableArgs repo name value] else [])

/-- The argument vector of one `gh secret set` write issued by the `set`
command (`ghss/commands.py`, lines 116-139). -/
def secretSetArgs (repo key value : Str) : List Str :=
  ["secret".data, "set".data, key, "--body".data, value, "--repo".data, repo]

/-- The observable outcome of a `set` command run: the remote write argument
vectors it issued, in order, and its exit code. -/
structure SetOutcome where
  calls : List (List Str)
  exit : Nat
deriving DecidableEq

/-- The `set` command of `ghss/commands.py` (lines 116-139), after the auth
check and repo resolution succeed: load the `.env` file (propagating its
`typer.Exit 1` when the file is missing), and issue one `gh secret set` call
per loaded entry, in the mapping's order.  An empty mapping returns early
with no calls, which coincides with mapping over the empty list. -/
def ghss_set (fileExists : Bool) (content : Str) (repo : Str) : SetOutcome :=
  match load_env_file fileExists content with
  | Except.error code => { calls := [], exit := code }
  | Except.ok m =>
      { calls := m.map fun kv => secretSetArgs repo kv.1 kv.2, exit := 0 }

/-- An observable event of a command run: a message printed, a confirmation
prompt shown to the user, a remote call issued (its `gh` argument vector), or
a fixed sleep of the given number of seconds. -/
inductive Event where
  | echo (msg : Str)
  | prompt
  | ghCall (args : List Str)
  | sleep (seconds : Nat)
deriving DecidableEq

/-- The observable outcome of a command run as a trace plus exit code. -/
structure CmdOutcome where
  trace : List Event
  exit : Nat
deriving DecidableEq

/-- Modelled from the spec: the variable-kind `set` command (the
confirmation-gated bulk write) is exercised by `tests/test_commands.py`
(`TestSet`) but its implementation is not among the source files; per the
spec (§4.6, §8), it loads the `.env` file, and for a non-empty mapping shows
a confirmation prompt before any remote write; if the user confirms it issues
one variable write per entry in order, and if the user declines it prints an
"Operation cancelled" message, issues no remote write, and exits with code 0.
`confirmed` is the user's answer to the prompt; remote variable writes are
recorded as `Event.ghCall` of the PATCH attempt's argument vector. -/
def ghss_var_set (fileExists : Bool) (content : Str) (repo : Str)
    (confirmed : Bool) : CmdOutcome :=
  match load_env_file fileExists content with
  | Except.error code => { trace := [], exit := code }
  | Except.ok m =>
      if m = [] then
        { trace := [Event.echo "No variables found in .env file.".data], exit := 0 }
      else if confirmed then
        { trace := Event.prompt ::
            m.map (fun kv => Event.ghCall (patchVariableArgs repo kv.1 kv.2)),
          exit := 0 }
      else
        { trace := [Event.prompt, Event.echo "Operation cancelled".data], exit := 0 }

/-- Python `str.upper()` on the ASCII names in play. -/
def strUpper (s : Str) : Str := s.map Char.toUpper

/-- The `gh secret list --repo R --json name` argument vector. -/
def secretListArgs (repo : Str) : List Str :=
  ["secret".data, "list".data, "--repo".data, repo, "--json".data, "name".data]

/-- The `gh secret delete` argument vector issued by `testconf`. -/
def secretDeleteArgs (repo name : Str) : List Str :=
  ["secret".data, "delete".data, name, "--repo".data, repo]

/-- `testconf` (`ghss/commands.py`, lines 24-73), after a successful auth
check and repo resolution: create the throwaway secret
`ghs_test_secret_<suffix>`, sleep a fixed 3 seconds, list the repository's
secret names, and fail with exit code 1 when the upper-cased test name is not
among them; otherwise delete the secret and succeed.  `suffix` is the random
string generated; `listing` is the list of names the `secret list` call
returns. -/
def testconf (repo suffix : Str) (listing : List Str) : CmdOutcome :=
  let secretName := "ghs_test_secret_".data ++ suffix
  let secretValue := "test_value_12345".data
  let pre : List Event :=
    [Event.echo "Testing gh CLI authentication...".data,
     Event.echo "gh CLI is authenticated".data,
     Event.ghCall (secretSetArgs repo secretName secretValue),
     Event.echo "Test secret created".data,
     Event.echo "Verifying test secret exists...".data,
     Event.echo "Waiting 3 seconds before trying to get the secret...".data,
     Event.sleep 3,
     Event.ghCall (secretListArgs repo)]
  if (strUpper secretName) ∈ listing then
    { trace := pre ++
        [Event.echo "Test secret verified".data,
         Event.ghCall (secretDeleteArgs repo (strUpper secretName)),
         Event.echo "Test secret deleted".data],
      exit := 0 }
  else
    { trace := pre ++ [Event.echo "Test secret not found in repository".data],
      exit := 1 }

/-- The entry dictionary `{'name': k, 'value': v}` built from one mapping
pair, as the variable-kind `get` builds them from the API response. -/
def pairEntry (kv : Str × Str) : Entry :=
  { name := some kv.1, value := some kv.2 }

/-- A mapping pair that survives the `.env` codec unchanged: key and value
are whitespace-strip-invariant and contain no newline, the key contains no
`'='` and does not begin the line as a `#` comment. -/
def WfPair (kv : Str × Str) : Prop :=
  strip kv.1 = kv.1 ∧ strip kv.2 = kv.2 ∧ '\n' ∉ kv.1 ∧ '\n' ∉ kv.2 ∧
    '=' ∉ kv.1 ∧ kv.1.head? ≠ some '#'

instance (kv : Str × Str) : Decidable (WfPair kv) := by
  unfold WfPair; infer_instance

/-- Recognizes the sleep events of a command trace. -/
def isSleepEvent : Event → Bool
  | Event.echo _ => false
  | Event.prompt => false
  | Event.ghCall _ => false
  | Event.sleep _ => true

/-- An entry dictionary with its missing fields replaced by the empty string,
the way `var.get('name', '')` / `var.get('value', '')` read them. -/
def normalizeEntry (e : Entry) : Entry :=
  { name := some (e.name.getD []), value := some (e.value.getD []) }

theorem splitOnNl_append (s rest : Str) (h : '\n' ∉ s) :
    splitOnNl (s ++ '\n' :: rest) = s :: splitOnNl rest := by
  induction s with
  | nil => simp [splitOnNl]
  | cons c t ih =>
    have hc : c ≠ '\n' := fun hcEq => h (hcEq ▸ List.mem_cons_self c t)
    have ht : '\n' ∉ t := fun hm => h (List.mem_cons_of_mem c hm)
    have hcons : splitOnNl (c :: (t ++ '\n' :: rest)) =
        match splitOnNl (t ++ '\n' :: rest) with
        | [] => [[c]]
        | l :: ls => (c :: l) :: ls := by
      simp [splitOnNl, hc]
    simp [hcons, ih ht]

theorem lstrip_cons_of_not_space (c : Char) (t : Str) (hc : pyIsSpace c = false) :
    lstrip (c :: t) = c :: t := by
  simp [lstrip, List.dropWhile_cons, hc]

theorem not_space_of_lstrip_eq_self (c : Char) (t : Str) (h : lstrip (c :: t) = c :: t) :
    pyIsSpace c = false := by
  cases hpc : pyIsSpace c with
  | false => rfl
  | true =>
    exfalso
    have hdrop : List.dropWhile pyIsSpace t = c :: t := by
      rw [← h]; simp [lstrip, List.dropWhile_cons, hpc]
    have hle : (List.dropWhile pyIsSpace t).length ≤ t.length :=
      (List.dropWhile_suffix pyIsSpace).length_le
    rw [hdrop] at hle
    simp at hle

theorem strip_eq_self_parts (s : Str) (h : strip s = s) :
    lstrip s = s ∧ rstrip s = s := by
  have h1 : (lstrip s).length ≤ s.length := (List.dropWhile_suffix pyIsSpace).length_le
  have h2 : (rstrip (lstrip s)).length ≤ (lstrip s).length := by
    have := ((List.dropWhile_suffix pyIsSpace (l := (lstrip s).reverse)).length_le)
    simpa [rstrip] using this
  have hlenEq : s.length = (strip s).length := by rw [h]
  have hlstripLen : (lstrip s).length = s.length := by
    simp only [strip] at hlenEq; omega
  have hl : lstrip s = s :=
    (List.dropWhile_suffix pyIsSpace).eq_of_length hlstripLen
  refine ⟨hl, ?_⟩
  calc rstrip s = rstrip (lstrip s) := by rw [hl]
    _ = s := h

theorem rstrip_append_of_rstrip_eq_self (xs v : Str) (hv : v ≠ [])
    (h : rstrip v = v) : rstrip (xs ++ v) = xs ++ v := by
  obtain ⟨d, w, hdw⟩ := List.exists_cons_of_ne_nil (List.reverse_ne_nil_iff.mpr hv)
  have hrev : v.reverse.dropWhile pyIsSpace = v.reverse := by
    have := congrArg List.reverse h
    simpa [rstrip] using this
  have hd : pyIsSpace d = false := by
    apply not_space_of_lstrip_eq_self d w
    rw [hdw] at hrev
    simpa [lstrip] using hrev
  have hv' : v = w.reverse ++ [d] := by
    rw [← List.reverse_reverse v, hdw]
    simp
  have key : (xs ++ v).reverse.dropWhile pyIsSpace = (xs ++ v).reverse := by
    rw [List.reverse_append, hdw, List.cons_append, List.dropWhile_cons]
    simp [hd]
  calc rstrip (xs ++ v) = ((xs ++ v).reverse.dropWhile pyIsSpace).reverse := rfl
    _ = (xs ++ v).reverse.reverse := by rw [key]
    _ = xs ++ v := List.reverse_reverse _

theorem strip_keyval_line (k v : Str) (hk : strip k = k) (hv : strip v = v) :
    strip (k ++ '=' :: v) = k ++ '=' :: v := by
  have hkparts := strip_eq_self_parts k hk
  have hvparts := strip_eq_self_parts v hv
  have hl : lstrip (k ++ '=' :: v) = k ++ '=' :: v := by
    cases k with
    | nil => exact lstrip_cons_of_not_space '=' v (by decide)
    | cons c t =>
      have hc : pyIsSpace c = false :=
        not_space_of_lstrip_eq_self c t hkparts.1
      simpa using lstrip_cons_of_not_space c (t ++ '=' :: v) hc
  have hr : rstrip (k ++ '=' :: v) = k ++ '=' :: v := by
    cases hvcase : v with
    | nil =>
      have : rstrip ['='] = ['='] := by decide
      simpa using rstrip_append_of_rstrip_eq_self k ['='] (by simp) this
    | cons d w =>
      have hvne : v ≠ [] := by simp [hvcase]
      have : rstrip ((k ++ ['=']) ++ v) = (k ++ ['=']) ++ v :=
        rstrip_append_of_rstrip_eq_self (k ++ ['=']) v hvne hvparts.2
      simpa [hvcase] using this
  simp only [strip, hl, hr]

theorem splitFirstEq_append (k v : Str) (hk : '=' ∉ k) :
    splitFirstEq (k ++ '=' :: v) = some (k, v) := by
  induction k with
  | nil => simp [splitFirstEq]
  | cons c t ih =>
    have hc : c ≠ '=' := fun hcEq => hk (hcEq ▸ List.mem_cons_self c t)
    have ht : '=' ∉ t := fun hm => hk (List.mem_cons_of_mem c hm)
    have hc' : (c = '=') = False := by simp [hc]
    simp [splitFirstEq, hc', ih ht]

theorem dictInsert_of_not_mem (d : List (Str × Str)) (k v : Str)
    (h : k ∉ d.map Prod.fst) : dictInsert d k v = d ++ [(k, v)] := by
  induction d with
  | nil => rfl
  | cons kv rest ih =>
    simp only [List.map_cons, List.mem_cons, not_or] at h
    obtain ⟨h1, h2⟩ := h
    cases kv with
    | mk k' v' =>
      simp only [dictInsert, List.cons_append]
      rw [if_neg fun he => h1 (he.symm)]
      rw [ih h2]

theorem parseLineStep_keyval (acc : List (Str × Str)) (k v : Str)
    (hwf : WfPair (k, v)) :
    parseLineStep acc (k ++ '=' :: v) =
      if k = [] then acc else dictInsert acc k v := by
  obtain ⟨hk, hv, _, _, hkeq, hkhash⟩ := hwf
  have hstrip : strip (k ++ '=' :: v) = k ++ '=' :: v := strip_keyval_line k v hk hv
  have hne : ¬(k ++ '=' :: v = []) := by simp
  have hhead : ¬((k ++ '=' :: v).head? = some '#') := by
    cases k with
    | nil => simp
    | cons c t =>
      simp only [List.cons_append, List.head?_cons]
      simpa using hkhash
  have hsplit := splitFirstEq_append k v hkeq
  simp only [parseLineStep, hstrip, if_neg hne, if_neg hhead, hsplit, hk, hv]

theorem parse_write_fold (m : List (Str × Str)) (acc : List (Str × Str))
    (hwf : ∀ kv ∈ m, WfPair kv)
    (hnd : (m.map Prod.fst).Nodup)
    (hdisj : ∀ kv ∈ m, kv.1 ≠ [] → kv.1 ∉ acc.map Prod.fst) :
    (splitOnNl (write_env_file (m.map pairEntry))).foldl parseLineStep acc =
      acc ++ m.filter fun kv => decide (kv.1 ≠ []) := by
  induction m generalizing acc with
  | nil => simp [write_env_file, splitOnNl, parseLineStep, strip, lstrip, rstrip]
  | cons kv m' ih =>
    cases kv with
    | mk k v =>
      have hwfhead : WfPair (k, v) := hwf (k, v) (List.mem_cons_self _ _)
      have hwftail : ∀ p ∈ m', WfPair p := fun p hp => hwf p (List.mem_cons_of_mem _ hp)
      have hnd' : k ∉ m'.map Prod.fst ∧ (m'.map Prod.fst).Nodup := by
        rw [List.map_cons, List.nodup_cons] at hnd; exact hnd
      have hndtail : (m'.map Prod.fst).Nodup := hnd'.2
      have hknotin : k ∉ m'.map Prod.fst := hnd'.1
      have hcontent : write_env_file (((k, v) :: m').map pairEntry) =
          (k ++ '=' :: v) ++ '\n' :: write_env_file (m'.map pairEntry) := by
        simp [write_env_file, pairEntry, entryLine]
      have hnlk : '\n' ∉ k ++ '=' :: v := by
        obtain ⟨_, _, hnk, hnv, _, _⟩ := hwfhead
        simp only [List.mem_append, List.mem_cons, not_or]
        exact ⟨hnk, by decide, hnv⟩
      rw [hcontent, splitOnNl_append _ _ hnlk, List.foldl_cons,
        parseLineStep_keyval acc k v hwfhead]
      by_cases hkEmpty : k = []
      · rw [if_pos hkEmpty]
        rw [ih acc hwftail hndtail
          (fun p hp hpne => hdisj p (List.mem_cons_of_mem _ hp) hpne)]
        have : decide (k ≠ []) = false := by simp [hkEmpty]
        simp [List.filter_cons, this, hkEmpty]
      · rw [if_neg hkEmpty]
        have hkaccnot : k ∉ acc.map Prod.fst :=
          hdisj (k, v) (List.mem_cons_self _ _) hkEmpty
        rw [dictInsert_of_not_mem acc k v hkaccnot]
        rw [ih (acc ++ [(k, v)]) hwftail hndtail ?_]
        · have : decide (k ≠ []) = true := by simpa using hkEmpty
          simp [List.filter_cons, this, hkEmpty]
        · intro p hp hpne
          simp only [List.map_append, List.mem_append, not_or]
          refine ⟨hdisj p (List.mem_cons_of_mem _ hp) hpne, ?_⟩
          intro hmem
          simp only [List.map_cons, List.map_nil, List.mem_singleton] at hmem
          exact hknotin (hmem ▸ List.mem_map_of_mem Prod.fst hp)

theorem filter_key_then_both (m : List (Str × Str)) :
    (m.filter fun kv => decide (kv.1 ≠ [])).filter
        (fun kv => decide (kv.1 ≠ []) && decide (kv.2 ≠ [])) =
      m.filter fun kv => decide (kv.1 ≠ []) && decide (kv.2 ≠ []) := by
  rw [List.filter_filter]
  apply List.filter_congr
  intro kv _
  by_cases h1 : kv.1 = [] <;> by_cases h2 : kv.2 = [] <;> simp [h1, h2]

/-- **C1** (amended).  The claim's universal round-trip fails for mappings a
line codec cannot carry verbatim (see the counterexample); it holds for
every mapping whose keys and values are whitespace-strip-invariant and
newline-free, whose keys contain no `'='` and do not start with `'#'`, and
whose keys are distinct: writing such a mapping with `write_env_file` and
reading the produced file back with `load_env_file` yields the original
mapping minus any entries with an empty key or an empty value. -/
theorem c1_write_load_roundtrip (m : List (Str × Str))
    (hwf : ∀ kv ∈ m, WfPair kv) (hnd : (m.map Prod.fst).Nodup) :
    load_env_file true (write_env_file (m.map pairEntry)) =
      Except.ok (m.filter fun kv => decide (kv.1 ≠ []) && decide (kv.2 ≠ [])) := by
  have hfold := parse_write_fold m [] hwf hnd (by simp)
  simp only [load_env_file, Bool.not_true, Bool.false_eq_true, if_false, dotenvValues]
  rw [hfold]
  simp only [List.nil_append]
  rw [filter_key_then_both]

/-- Witness for C1 at the mapping `{A: 1, B: ""}`: the round trip drops the
empty-valued entry and keeps the other. -/
theorem c1_write_load_roundtrip_witness :
    load_env_file true
        (write_env_file ([(['A'], ['1']), (['B'], [])].map pairEntry)) =
      Except.ok ([(['A'], ['1']), (['B'], [])].filter
        fun kv => decide (kv.1 ≠ []) && decide (kv.2 ≠ [])) :=
  c1_write_load_roundtrip [(['A'], ['1']), (['B'], [])] (by decide) (by decide)

/-- Counterexample to C1 as stated: for the mapping `{K: " "}` (a non-empty,
whitespace-only value), write-then-load does not give back the mapping minus
its empty-keyed or empty-valued entries — the codec strips the value to
nothing and drops the entry. -/
theorem c1_counterexample :
    ¬ (load_env_file true (write_env_file ([(['K'], [' '])].map pairEntry)) =
        Except.ok ([(['K'], [' '])].filter
          fun kv => decide (kv.1 ≠ []) && decide (kv.2 ≠ []))) := by
  intro h
  have hL : load_env_file true (write_env_file ([(['K'], [' '])].map pairEntry)) =
      Except.ok [] := by rfl
  rw [hL] at h
  have hinj := Except.ok.inj h
  exact absurd hinj (by decide)

/-- **C5**: `load` on the literal input `"KEY1=value1\nKEY2=\nKEY3=value3\n"`
yields exactly `{KEY1: value1, KEY3: value3}` — the empty-valued `KEY2` is
dropped — and every key and value of the result is non-empty. -/
theorem c5_load_concrete :
    load_env_file true "KEY1=value1\nKEY2=\nKEY3=value3\n".data =
        Except.ok [("KEY1".data, "value1".data), ("KEY3".data, "value3".data)] ∧
      ∀ kv ∈ [(("KEY1".data : Str), ("value1".data : Str)),
          ("KEY3".data, "value3".data)], kv.1 ≠ [] ∧ kv.2 ≠ [] := by
  constructor
  · rfl
  · decide

/-- **C7**: for every file content, `load_env_file` on a path that does not
exist fails with exit code 1 and returns no mapping, and the `set` command
then terminates with exit code 1 having issued no remote call. -/
theorem c7_load_missing_file (content repo : Str) :
    load_env_file false content = Except.error 1 ∧
      ghss_set false content repo = { calls := [], exit := 1 } := by
  exact ⟨rfl, rfl⟩

/-- **C2**: whenever loading the store file succeeds with mapping `m`, the
`set` command issues exactly one `gh secret set` call per entry of `m`, in
the mapping's (file) order — so exactly `m.length` remote write calls — and
every entry that reaches a remote call has a non-empty key and a non-empty
value (empty-valued file lines never produce a call). -/
theorem c2_set_one_call_per_entry (content repo : Str) (m : List (Str × Str))
    (h : load_env_file true content = Except.ok m) :
    (ghss_set true content repo).calls =
        m.map (fun kv => secretSetArgs repo kv.1 kv.2) ∧
      (ghss_set true content repo).calls.length = m.length ∧
      ∀ kv ∈ m, kv.1 ≠ [] ∧ kv.2 ≠ [] := by
  refine ⟨by simp [ghss_set, h], by simp [ghss_set, h], ?_⟩
  intro kv hkv
  have hm : (dotenvValues content).filter
      (fun kv => decide (kv.1 ≠ []) && decide (kv.2 ≠ [])) = m := by
    simpa [load_env_file] using h
  rw [← hm] at hkv
  have hp := List.of_mem_filter hkv
  simpa using hp

/-- Witness for C2 on the file `"A=1\nB=\n"`: one call for `A`, none for the
empty-valued `B`. -/
theorem c2_set_one_call_per_entry_witness :
    (ghss_set true "A=1\nB=\n".data "o/r".data).calls =
        [(['A'], ['1'])].map (fun kv => secretSetArgs "o/r".data kv.1 kv.2) ∧
      (ghss_set true "A=1\nB=\n".data "o/r".data).calls.length =
        [((['A'] : Str), (['1'] : Str))].length ∧
      ∀ kv ∈ [((['A'] : Str), (['1'] : Str))], kv.1 ≠ [] ∧ kv.2 ≠ [] :=
  c2_set_one_call_per_entry "A=1\nB=\n".data "o/r".data [(['A'], ['1'])] (by rfl)

/-- **C3** (spec-modelled command body): during a variable-kind `set`, every
remote write in the trace is preceded by the confirmation prompt (the prompt
heads any trace that contains a write), and a user declining the prompt
yields exit code 0, a trace with zero remote write calls, and an
"Operation cancelled" message. -/
theorem c3_var_set_confirmation_gate (content repo : Str) (m : List (Str × Str))
    (hload : load_env_file true content = Except.ok m) (hne : m ≠ []) :
    ((ghss_var_set true content repo false).exit = 0 ∧
        (∀ args, Event.ghCall args ∉ (ghss_var_set true content repo false).trace) ∧
        Event.echo "Operation cancelled".data ∈ (ghss_var_set true content repo false).trace) ∧
      ∀ confirmed : Bool, ∀ args,
        Event.ghCall args ∈ (ghss_var_set true content repo confirmed).trace →
          (ghss_var_set true content repo confirmed).trace.head? = some Event.prompt := by
  constructor
  · simp [ghss_var_set, hload, hne]
  · intro confirmed args hmem
    cases confirmed with
    | false => simp [ghss_var_set, hload, hne]
    | true =>
      simp only [ghss_var_set, hload] at hmem ⊢
      rw [if_neg hne] at hmem ⊢
      simp

/-- Witness for C3 on the file `"A=1\n"`: declining the prompt cancels the
run with no remote write. -/
theorem c3_var_set_confirmation_gate_witness :
    ((ghss_var_set true "A=1\n".data "o/r".data false).exit = 0 ∧
        (∀ args, Event.ghCall args ∉ (ghss_var_set true "A=1\n".data "o/r".data false).trace) ∧
        Event.echo "Operation cancelled".data ∈
          (ghss_var_set true "A=1\n".data "o/r".data false).trace) ∧
      ∀ confirmed : Bool, ∀ args,
        Event.ghCall args ∈ (ghss_var_set true "A=1\n".data "o/r".data confirmed).trace →
          (ghss_var_set true "A=1\n".data "o/r".data confirmed).trace.head? =
            some Event.prompt :=
  c3_var_set_confirmation_gate "A=1\n".data "o/r".data [(['A'], ['1'])] (by rfl) (by decide)

theorem patchArgs_ne_postArgs (repo name value : Str) :
    patchVariableArgs repo name value ≠ postVariableArgs repo name value := by
  intro h
  have h2 := congrArg (fun l => l.get? 2) h
  simp only [patchVariableArgs, postVariableArgs, apiHeaderArgs, List.cons_append,
    List.get?] at h2
  exact absurd h2 (by decide)

/-- **C4**: `set_variable` always issues the PATCH update attempt first; it
issues the POST create call, as a second step, exactly when the PATCH
attempt's exit status is non-zero — whatever the reason for the failure —
and when the PATCH attempt succeeds the POST create call is not issued. -/
theorem c4_set_variable_update_then_create (repo name value : Str) (patchExit : Nat) :
    (set_variable repo name value patchExit).head? =
        some (patchVariableArgs repo name value) ∧
      (patchExit ≠ 0 → set_variable repo name value patchExit =
        [patchVariableArgs repo name value, postVariableArgs repo name value]) ∧
      (patchExit = 0 → set_variable repo name value patchExit =
          [patchVariableArgs repo name value] ∧
        postVariableArgs repo name value ∉ set_variable repo name value patchExit) := by
  refine ⟨rfl, ?_, ?_⟩
  · intro hne
    simp [set_variable, hne]
  · intro heq
    constructor
    · simp [set_variable, heq]
    · simp only [set_variable, heq]
      simp [List.mem_singleton]
      exact fun hmem => patchArgs_ne_postArgs repo name value hmem.symm

/-- Witness for C4: with a failing PATCH (exit 1) both calls are issued, in
order; the implication hypotheses are discharged at exit status 1. -/
theorem c4_set_variable_update_then_create_witness :
    (set_variable "o/r".data "N".data "V".data 1).head? =
        some (patchVariableArgs "o/r".data "N".data "V".data) ∧
      set_variable "o/r".data "N".data "V".data 1 =
        [patchVariableArgs "o/r".data "N".data "V".data,
         postVariableArgs "o/r".data "N".data "V".data] :=
  ⟨(c4_set_variable_update_then_create "o/r".data "N".data "V".data 1).1,
   (c4_set_variable_update_then_create "o/r".data "N".data "V".data 1).2.1 (by decide)⟩

theorem splitOnNl_write (entries : List Entry)
    (hnl : ∀ e ∈ entries, '\n' ∉ e.name.getD [] ∧ '\n' ∉ e.value.getD []) :
    splitOnNl (write_env_file entries) =
      entries.map (fun e => e.name.getD [] ++ '=' :: e.value.getD []) ++ [[]] := by
  induction entries with
  | nil => simp [write_env_file, splitOnNl]
  | cons e rest ih =>
    have hhead := hnl e (List.mem_cons_self _ _)
    have htail : ∀ e' ∈ rest, '\n' ∉ e'.name.getD [] ∧ '\n' ∉ e'.value.getD [] :=
      fun e' he' => hnl e' (List.mem_cons_of_mem _ he')
    have hline : '\n' ∉ e.name.getD [] ++ '=' :: e.value.getD [] := by
      simp only [List.mem_append, List.mem_cons, not_or]
      exact ⟨hhead.1, by decide, hhead.2⟩
    have hcontent : write_env_file (e :: rest) =
        (e.name.getD [] ++ '=' :: e.value.getD []) ++ '\n' :: write_env_file rest := by
      simp [write_env_file, entryLine]
    rw [hcontent, splitOnNl_append _ _ hline, ih htail]
    simp

/-- **C6**: `write_env_file` produces exactly one `key=value` line per entry,
in the order given (the written content splits into those lines plus the
empty segment after the final newline); the file-system write truncates —
the resulting content is the same whatever the file held before; an empty
entry list produces an empty file; and a secret-kind entry with no
retrievable value yields its name followed by `=` and a newline, in both the
`ghss` and the legacy `ghs` codec. -/
theorem c6_write_lines (entries : List Entry)
    (hnl : ∀ e ∈ entries, '\n' ∉ e.name.getD [] ∧ '\n' ∉ e.value.getD []) :
    splitOnNl (write_env_file entries) =
        entries.map (fun e => e.name.getD [] ++ '=' :: e.value.getD []) ++ [[]] ∧
      (∀ old₁ old₂ : Option Str,
        write_env_file_fs old₁ entries = write_env_file_fs old₂ entries) ∧
      write_env_file [] = [] ∧
      write_env_file [{ name := some "VAR1".data, value := some "value1".data }] =
        "VAR1=value1\n".data ∧
      write_env_file [{ name := some "VAR1".data, value := none }] = "VAR1=\n".data ∧
      ghs_write_env_file [{ name := some "VAR1".data, value := none }] =
        some "VAR1=\n".data := by
  exact ⟨splitOnNl_write entries hnl, fun old₁ old₂ => rfl, rfl, rfl, rfl, rfl⟩

/-- Witness for C6 at a two-entry list (one variable-kind, one secret-kind
entry). -/
theorem c6_write_lines_witness :
    splitOnNl (write_env_file [{ name := some ['A'], value := some ['1'] },
        { name := some ['B'], value := none }]) =
        [{ name := some ['A'], value := some ['1'] },
          ({ name := some ['B'], value := none } : Entry)].map
          (fun e => e.name.getD [] ++ '=' :: e.value.getD []) ++ [[]] ∧
      (∀ old₁ old₂ : Option Str,
        write_env_file_fs old₁ [{ name := some ['A'], value := some ['1'] },
            { name := some ['B'], value := none }] =
          write_env_file_fs old₂ [{ name := some ['A'], value := some ['1'] },
            { name := some ['B'], value := none }]) ∧
      write_env_file [] = [] ∧
      write_env_file [{ name := some "VAR1".data, value := some "value1".data }] =
        "VAR1=value1\n".data ∧
      write_env_file [{ name := some "VAR1".data, value := none }] = "VAR1=\n".data ∧
      ghs_write_env_file [{ name := some "VAR1".data, value := none }] =
        some "VAR1=\n".data :=
  c6_write_lines [{ name := some ['A'], value := some ['1'] },
    { name := some ['B'], value := none }] (by decide)

/-- **C8**: for every subprocess outcome and every value of the caller's
must-succeed flag, the transport shim fails fatally — exit code 1, carrying
the captured error stream — exactly when the flag is set and the exit status
is non-zero; in every other case it returns the raw result unchanged. -/
theorem c8_run_gh_command_check (r : CompletedProcess) (check : Bool) :
    (check = true ∧ r.returncode ≠ 0 →
        run_gh_command r check =
          GhResult.fatal 1 ("Error running gh command: ".data ++ r.stderr)) ∧
      (¬(check = true ∧ r.returncode ≠ 0) → run_gh_command r check = GhResult.ok r) := by
  constructor
  · rintro ⟨hc, hrc⟩
    simp [run_gh_command, hc, hrc]
  · intro h
    have hcond : (check && r.returncode != 0) = false := by
      cases check with
      | false => rfl
      | true =>
        have hrc : r.returncode = 0 := by
          by_contra hrc
          exact h ⟨rfl, hrc⟩
        simp [hrc]
    simp [run_gh_command, hcond]

/-- Witness for C8: a failing subprocess (exit 2) under the must-succeed flag
is fatal with the stderr carried; a failing subprocess without the flag is
returned raw. -/
theorem c8_run_gh_command_check_witness :
    run_gh_command ⟨2, [], ['x']⟩ true =
        GhResult.fatal 1 ("Error running gh command: ".data ++ ['x']) ∧
      run_gh_command ⟨2, [], ['x']⟩ false = GhResult.ok ⟨2, [], ['x']⟩ :=
  ⟨(c8_run_gh_command_check ⟨2, [], ['x']⟩ true).1 ⟨rfl, by decide⟩,
   (c8_run_gh_command_check ⟨2, [], ['x']⟩ false).2 (by simp)⟩

/-- **C9**: in `testconf`, the write of the test secret, a fixed 3-second
sleep, and the read-back listing occur in that order (and that sleep is the
only sleep of the run); if the read-back listing does not contain the
created entry's (upper-cased) name, the command exits with code 1. -/
theorem c9_testconf_sleep_and_verify (repo suffix : Str) (listing : List Str) :
    ([Event.ghCall (secretSetArgs repo ("ghs_test_secret_".data ++ suffix)
          "test_value_12345".data),
        Event.sleep 3,
        Event.ghCall (secretListArgs repo)]).Sublist
        (testconf repo suffix listing).trace ∧
      (testconf repo suffix listing).trace.filter isSleepEvent = [Event.sleep 3] ∧
      (strUpper ("ghs_test_secret_".data ++ suffix) ∉ listing →
        (testconf repo suffix listing).exit = 1) := by
  simp only [testconf]
  split
  next h =>
    refine ⟨?_, ?_, ?_⟩
    · exact (List.Sublist.cons _ (List.Sublist.cons _ (List.Sublist.cons₂ _
        (List.Sublist.cons _ (List.Sublist.cons _ (List.Sublist.cons _
          (List.Sublist.cons₂ _ (List.Sublist.cons₂ _ (List.nil_sublist _)))))))))
    · simp [isSleepEvent]
    · intro habs
      exact absurd h habs
  next h =>
    refine ⟨?_, ?_, ?_⟩
    · exact (List.Sublist.cons _ (List.Sublist.cons _ (List.Sublist.cons₂ _
        (List.Sublist.cons _ (List.Sublist.cons _ (List.Sublist.cons _
          (List.Sublist.cons₂ _ (List.Sublist.cons₂ _ (List.nil_sublist _)))))))))
    · simp [isSleepEvent]
    · intro _
      rfl

/-- Witness for C9: with an empty read-back listing the test name is absent
and `testconf` exits with code 1 (the trace conjuncts are instantiated at the
same input). -/
theorem c9_testconf_sleep_and_verify_witness :
    ([Event.ghCall (secretSetArgs "o/r".data ("ghs_test_secret_".data ++ "ab".data)
          "test_value_12345".data),
        Event.sleep 3,
        Event.ghCall (secretListArgs "o/r".data)]).Sublist
        (testconf "o/r".data "ab".data []).trace ∧
      (testconf "o/r".data "ab".data []).trace.filter isSleepEvent =
        [Event.sleep 3] ∧
      (testconf "o/r".data "ab".data []).exit = 1 :=
  ⟨(c9_testconf_sleep_and_verify "o/r".data "ab".data []).1,
   (c9_testconf_sleep_and_verify "o/r".data "ab".data []).2.1,
   (c9_testconf_sleep_and_verify "o/r".data "ab".data []).2.2 (by decide)⟩

/-- **C10**: the `ghss` `write_env_file` treats a missing `name` or `value`
field of any entry as the empty string — writing any entry list equals
writing it with missing fields replaced by empty strings, so the function
fails on no entry list — and the entirely empty entry dictionary produces
exactly the line `"=\n"`. -/
theorem c10_write_total_missing_fields (entries : List Entry) :
    write_env_file entries = write_env_file (entries.map normalizeEntry) ∧
      write_env_file [{ name := none, value := none }] = "=\n".data := by
  refine ⟨?_, rfl⟩
  induction entries with
  | nil => rfl
  | cons e rest ih =>
    have hline : entryLine (normalizeEntry e) = entryLine e := rfl
    simp [write_env_file, hline, ih]

end Ghs
